import Mathlib

/-!
# Ingress-manager controller (`03/pkg/controller.go`)

A shallow embedding of the service/ingress reconciliation controller.

* Kubernetes objects are records holding the fields the controller reads or writes.
* The listers and the mutating client are collaborators: their answers are the fields
  of `Env`, and every call the controller makes to them is recorded in a trace.
* The rate-limited work queue is an explicit state (`WorkQueue`) with the operations
  the controller calls on it.
-/

namespace IngressManager

/-! ## Errors -/

/-- Errors the controller can observe.  `notFound` is the API status error for which
`errors.IsNotFound` answers true; `keyFormat` is the error of `SplitMetaNamespaceKey`. -/
inductive Err where
  | keyFormat (key : String)
  | notFound
  | alreadyExists
  | badRequest
  | other (msg : String)
  deriving DecidableEq, Repr

/-- Go `errors.IsNotFound(err)`; a nil error is not a not-found error. -/
def IsNotFound : Option Err → Bool
  | some Err.notFound => true
  | _ => false

/-! ## Objects -/

/-- The `meta.OwnerReference` record. -/
structure OwnerReference where
  apiVersion : String
  kind : String
  name : String
  uid : String
  controller : Option Bool
  blockOwnerDeletion : Option Bool
  deriving DecidableEq, Repr

/-- The fields of `core.Service` the controller uses. -/
structure Service where
  Name : String
  Namespace : String
  uid : String
  annotations : List (String × String)
  deriving DecidableEq, Repr

/-- The `net.PathType` values. -/
inductive PathType where
  | Exact
  | PathTypePrefix
  | ImplementationSpecific
  deriving DecidableEq, Repr

structure ServiceBackendPort where
  name : String
  number : Int
  deriving DecidableEq, Repr

structure IngressServiceBackend where
  name : String
  port : ServiceBackendPort
  deriving DecidableEq, Repr

structure IngressBackend where
  service : Option IngressServiceBackend
  deriving DecidableEq, Repr

structure HTTPIngressPath where
  path : String
  pathType : Option PathType
  backend : IngressBackend
  deriving DecidableEq, Repr

structure HTTPIngressRuleValue where
  paths : List HTTPIngressPath
  deriving DecidableEq, Repr

structure IngressRule where
  host : String
  http : Option HTTPIngressRuleValue
  deriving DecidableEq, Repr

structure IngressSpec where
  ingressClassName : Option String
  rules : List IngressRule
  deriving DecidableEq, Repr

/-- The fields of `net.Ingress` the controller uses. -/
structure Ingress where
  Name : String
  Namespace : String
  ownerReferences : List OwnerReference
  spec : IngressSpec
  deriving DecidableEq, Repr

/-! ## Library helpers (apimachinery / client-go) -/

/-- Go `meta.NewControllerRef(owner, core.SchemeGroupVersion.WithKind(kind))` for a
service owner: the core group has an empty group name, so the API version is `v1`. -/
def NewControllerRef (owner : Service) (kind : String) : OwnerReference :=
  { apiVersion := "v1"
    kind := kind
    name := owner.Name
    uid := owner.uid
    controller := some true
    blockOwnerDeletion := some true }

/-- Go `meta.GetControllerOf`: the first owner reference whose `Controller` pointer is
set and true. -/
def GetControllerOf (ingress : Ingress) : Option OwnerReference :=
  ingress.ownerReferences.find? (fun r => r.controller == some true)

/-- Go `strings.Split(s, "/")` on the characters of `s`. -/
def splitSlash (s : String) : List (List Char) :=
  s.data.splitOn '/'

/-- Go `cache.SplitMetaNamespaceKey`: one part is a bare name, two parts are
namespace and name, anything else is an error. -/
def SplitMetaNamespaceKey (key : String) : Except Err (String × String) :=
  match splitSlash key with
  | [n] => .ok ("", String.mk n)
  | [ns, n] => .ok (String.mk ns, String.mk n)
  | _ => .error (Err.keyFormat key)

/-- Go `cache.MetaNamespaceKeyFunc` on an object with the given namespace and name:
`namespace/name`, or the bare name when the namespace is empty. -/
def MetaNamespaceKeyFunc (ns name : String) : String :=
  if ns.length > 0 then ns ++ "/" ++ name else name

/-! ## Collaborators and the call trace -/

/-- A call made by the controller to a lister or to the mutating client. -/
inductive Call where
  | getService (ns name : String)
  | getIngress (ns name : String)
  | create (ns : String) (ingress : Ingress)
  | delete (ns name : String)
  deriving DecidableEq, Repr

/-- Whether the call is a Create. -/
def Call.isCreate : Call → Bool
  | .create _ _ => true
  | _ => false

/-- Whether the call is a Delete. -/
def Call.isDelete : Call → Bool
  | .delete _ _ => true
  | _ => false

/-- Whether the call mutates the cluster (Create or Delete). -/
def Call.isMutating (c : Call) : Bool :=
  c.isCreate || c.isDelete

/-- Answers of the collaborators: the two listers (`Get` returns an object or an
error) and the client (`Create` and `Delete` return nil or an error). -/
structure Env where
  serviceGet : String → String → Except Err Service
  ingressGet : String → String → Except Err Ingress
  ingressCreate : String → Ingress → Option Err
  ingressDelete : String → String → Option Err

/-! ## The reconciler -/

/-- Go `constructIngress`. -/
def constructIngress (service : Service) : Ingress :=
  { Name := service.Name
    Namespace := service.Namespace
    ownerReferences := [NewControllerRef service "Service"]
    spec :=
      { ingressClassName := some "nginx"
        rules :=
          [ { host := "client-go-demo.com"
              http := some
                { paths :=
                    [ { path := "/"
                        pathType := some PathType.PathTypePrefix
                        backend :=
                          { service := some
                              { name := service.Name
                                port := { name := "", number := 80 } } } } ] } } ] } }

/-- The marker lookup `_, ok := service.GetAnnotations()["ingress/http"]`. -/
def hasMarker (service : Service) : Bool :=
  service.annotations.any (fun kv => kv.1 == "ingress/http")

/-- Go `syncService`: the returned error (nil is `none`) and the calls made, in order. -/
def syncService (env : Env) (key : String) : Option Err × List Call :=
  match SplitMetaNamespaceKey key with
  | .error err => (some err, [])
  | .ok (ns, name) =>
    match env.serviceGet ns name with
    | .error err => (some err, [Call.getService ns name])
    | .ok service =>
      let ok := hasMarker service
      let (ingress, err) : Option Ingress × Option Err :=
        match env.ingressGet ns name with
        | .ok ig => (some ig, none)
        | .error e => (none, some e)
      let lookups := [Call.getService ns name, Call.getIngress ns name]
      if err.isSome && !IsNotFound err then
        (err, lookups)
      else if ok && IsNotFound err then
        let ig := constructIngress service
        match env.ingressCreate ns ig with
        | some e => (some e, lookups ++ [Call.create ns ig])
        | none => (none, lookups ++ [Call.create ns ig])
      else if !ok && ingress.isSome then
        match env.ingressDelete ns name with
        | some e => (some e, lookups ++ [Call.delete ns name])
        | none => (none, lookups ++ [Call.delete ns name])
      else
        (none, lookups)

/-! ## The rate-limited work queue (client-go `workqueue`) -/

/-- State of the rate-limiting queue built by `workqueue.NewNamedRateLimitingQueue`:
the FIFO `queue`, the `dirty` and `processing` sets, the items handed to `AddAfter`
that wait for their delay (`waiting`), and the rate limiter's per-item failure
counter (`failures`). -/
structure WorkQueue where
  queue : List String
  dirty : List String
  processing : List String
  shuttingDown : Bool
  waiting : List String
  failures : String → Nat

/-- A freshly built queue. -/
def WorkQueue.new : WorkQueue :=
  { queue := [], dirty := [], processing := [], shuttingDown := false, waiting := []
    failures := fun _ => 0 }

/-- Queue method `Add`: ignored while shutting down or when the item is already dirty;
an item being processed is only marked dirty. -/
def WorkQueue.Add (q : WorkQueue) (item : String) : WorkQueue :=
  if q.shuttingDown then q
  else if item ∈ q.dirty then q
  else if item ∈ q.processing then { q with dirty := q.dirty ++ [item] }
  else { q with dirty := q.dirty ++ [item], queue := q.queue ++ [item] }

/-- Outcome of the queue method `Get`. -/
inductive GetResult where
  | blocked
  | shutdown
  | item (key : String) (q : WorkQueue)

/-- Queue method `Get`: waits while the queue is empty and not shutting down; reports
shutdown when it is empty and shutting down; otherwise hands out the head, moving it
from `dirty` to `processing`. -/
def WorkQueue.Get (q : WorkQueue) : GetResult :=
  match q.queue with
  | [] => if q.shuttingDown then .shutdown else .blocked
  | item :: rest =>
    .item item { q with queue := rest
                        processing := if item ∈ q.processing then q.processing
                                      else q.processing ++ [item]
                        dirty := q.dirty.filter (fun k => k != item) }

/-- Queue method `Done`: the item leaves `processing` and, when it was re-added
meanwhile, goes back to the queue. -/
def WorkQueue.Done (q : WorkQueue) (item : String) : WorkQueue :=
  let processing := q.processing.filter (fun k => k != item)
  if item ∈ q.dirty then { q with processing := processing, queue := q.queue ++ [item] }
  else { q with processing := processing }

/-- Queue method `NumRequeues`: the rate limiter's failure count of the item. -/
def WorkQueue.NumRequeues (q : WorkQueue) (item : String) : Nat :=
  q.failures item

/-- Queue method `AddRateLimited`: `AddAfter(item, rateLimiter.When(item))`.  `When`
adds one to the failure count of the item and returns a positive delay, so the item
joins the waiting items (once; nothing waits when the queue is shutting down). -/
def WorkQueue.AddRateLimited (q : WorkQueue) (item : String) : WorkQueue :=
  let failures := fun k => if k = item then q.failures item + 1 else q.failures k
  if q.shuttingDown then { q with failures := failures }
  else if item ∈ q.waiting then { q with failures := failures }
  else { q with failures := failures, waiting := q.waiting ++ [item] }

/-- Queue method `Forget`: the rate limiter drops the item's failure count. -/
def WorkQueue.Forget (q : WorkQueue) (item : String) : WorkQueue :=
  { q with failures := fun k => if k = item then 0 else q.failures k }

/-- The delay of a waiting item elapses: the delaying queue calls `Add` on it. -/
def WorkQueue.deliver (q : WorkQueue) (item : String) : WorkQueue :=
  if item ∈ q.waiting then WorkQueue.Add { q with waiting := q.waiting.erase item } item
  else q

/-! ## The controller -/

def workNum : Nat := 5

def maxRetry : Nat := 10

/-- What the controller did, in order: calls to the listers and the client, calls to
the queue, and errors handed to `runtime.HandleError`. -/
inductive Event where
  | api (c : Call)
  | queueGet (key : String)
  | queueAdd (key : String)
  | queueAddRateLimited (key : String)
  | queueForget (key : String)
  | queueDone (key : String)
  | handleError (e : Err)
  deriving DecidableEq, Repr

/-- Whether the event is a call to a lister or to the client. -/
def Event.isApi : Event → Bool
  | .api _ => true
  | _ => false

/-- The Go `controller` struct: the client and the listers (`env`), the queue, and
the record of what the controller has done so far. -/
structure controller where
  env : Env
  queue : WorkQueue
  log : List Event

/-- The call `c.queue.Add(key)`. -/
def controller.queueAdd (c : controller) (key : String) : controller :=
  { c with queue := c.queue.Add key, log := c.log ++ [Event.queueAdd key] }

/-- The call `c.queue.AddRateLimited(key)`. -/
def controller.queueAddRateLimited (c : controller) (key : String) : controller :=
  { c with queue := c.queue.AddRateLimited key, log := c.log ++ [Event.queueAddRateLimited key] }

/-- The call `c.queue.Forget(key)`. -/
def controller.queueForget (c : controller) (key : String) : controller :=
  { c with queue := c.queue.Forget key, log := c.log ++ [Event.queueForget key] }

/-- The call `c.queue.Done(key)`. -/
def controller.queueDone (c : controller) (key : String) : controller :=
  { c with queue := c.queue.Done key, log := c.log ++ [Event.queueDone key] }

/-- Go `enqueue` on a service: `MetaNamespaceKeyFunc` cannot fail on an object that
carries metadata, so the key is added. -/
def enqueue (c : controller) (obj : Service) : controller :=
  c.queueAdd (MetaNamespaceKeyFunc obj.Namespace obj.Name)

/-- Go `addService`. -/
def addService (c : controller) (obj : Service) : controller :=
  enqueue c obj

/-- Go `updateService`.  `deepEqual` is `reflect.DeepEqual` on the whole objects, which
carry more fields than the record `Service` keeps, so its answer is supplied. -/
def updateService (deepEqual : Service → Service → Bool) (c : controller)
    (oldObj newObj : Service) : controller :=
  if deepEqual oldObj newObj then c else enqueue c newObj

/-- Go `deleteIngress`. -/
def deleteIngress (c : controller) (ingress : Ingress) : controller :=
  match GetControllerOf ingress with
  | none => c
  | some ownerReference =>
    if ownerReference.kind != "Service" then c
    else c.queueAdd (ingress.Namespace ++ "/" ++ ingress.Name)

/-- Go `handlerError`. -/
def handlerError (c : controller) (key : String) (err : Err) : controller :=
  if c.queue.NumRequeues key ≤ maxRetry then
    c.queueAddRateLimited key
  else
    controller.queueForget { c with log := c.log ++ [Event.handleError err] } key

/-- Go `processNextItem`: `none` while `Get` waits on an empty queue; otherwise the
returned boolean and the state after the deferred `Done`. -/
def processNextItem (c : controller) : Option (Bool × controller) :=
  match c.queue.Get with
  | .blocked => none
  | .shutdown => some (false, c)
  | .item key q =>
    let c1 : controller := { c with queue := q, log := c.log ++ [Event.queueGet key] }
    let r := syncService c1.env key
    let c2 : controller := { c1 with log := c1.log ++ r.2.map Event.api }
    let c3 : controller :=
      match r.1 with
      | some err => handlerError c2 key err
      | none => c2
    some (true, c3.queueDone key)

/-! ## A cluster whose caches are up to date -/

/-- The stored objects of the two kinds.  The caches of the listers show exactly this
state, and a successful Create or Delete changes it. -/
structure Cluster where
  services : List Service
  ingresses : List Ingress

/-- Whether the ingress is stored under the given namespace and name. -/
def Ingress.at (ns name : String) (ig : Ingress) : Bool :=
  ig.Namespace == ns && ig.Name == name

/-- Whether the service is stored under the given namespace and name. -/
def Service.at (ns name : String) (s : Service) : Bool :=
  s.Namespace == ns && s.Name == name

/-- The answers of listers and client on a cluster state: a lookup finds the object
stored under the namespace and name or answers not-found; Create refuses an object of
another namespace or an existing name; Delete answers not-found when nothing is there. -/
def Cluster.env (st : Cluster) : Env :=
  { serviceGet := fun ns name =>
      match st.services.find? (Service.at ns name) with
      | some s => .ok s
      | none => .error Err.notFound
    ingressGet := fun ns name =>
      match st.ingresses.find? (Ingress.at ns name) with
      | some ig => .ok ig
      | none => .error Err.notFound
    ingressCreate := fun ns ig =>
      if ig.Namespace != ns then some Err.badRequest
      else if st.ingresses.any (Ingress.at ns ig.Name) then some Err.alreadyExists
      else none
    ingressDelete := fun ns name =>
      if st.ingresses.any (Ingress.at ns name) then none else some Err.notFound }

/-- The effect of one call on the cluster state. -/
def Cluster.apply (st : Cluster) : Call → Cluster
  | .create ns ig =>
    match st.env.ingressCreate ns ig with
    | none => { st with ingresses := st.ingresses ++ [ig] }
    | some _ => st
  | .delete ns name =>
    { st with ingresses := st.ingresses.filter (fun ig => !Ingress.at ns name ig) }
  | _ => st

/-- One `syncService` call against the cluster: its result, its calls, and the state
the calls leave behind. -/
def syncOnCluster (st : Cluster) (key : String) : Option Err × List Call × Cluster :=
  let r := syncService st.env key
  (r.1, r.2, r.2.foldl Cluster.apply st)

/-! ## Concrete objects used to exercise the statements -/

/-- Service `ns/svc1` carrying the marker annotation. -/
def svcMarked : Service :=
  { Name := "svc1", Namespace := "ns", uid := "u1", annotations := [("ingress/http", "true")] }

/-- Service `ns/svc1` without the marker annotation. -/
def svcPlain : Service :=
  { Name := "svc1", Namespace := "ns", uid := "u1", annotations := [] }

/-- The ingress `ns/svc1` built for `svcMarked`. -/
def ingSvc1 : Ingress := constructIngress svcMarked

/-- Marked service, no ingress. -/
def clusterMarkedOnly : Cluster := { services := [svcMarked], ingresses := [] }

/-- Marked service and its ingress. -/
def clusterMarkedBoth : Cluster := { services := [svcMarked], ingresses := [ingSvc1] }

/-- Unmarked service with a left-over ingress. -/
def clusterPlainBoth : Cluster := { services := [svcPlain], ingresses := [ingSvc1] }

/-- No service, but an ingress `ns/svc1` in the cache. -/
def clusterOrphan : Cluster := { services := [], ingresses := [ingSvc1] }

/-- Unmarked service with an ingress in the cache that the store no longer has:
Delete answers not-found. -/
def envStaleIngress : Env :=
  { clusterPlainBoth.env with ingressDelete := fun _ _ => some Err.notFound }

/-- Listers that fail on every service lookup. -/
def envFailing : Env :=
  { clusterMarkedOnly.env with serviceGet := fun _ _ => .error (Err.other "cache unavailable") }

/-- A controller with a fresh queue holding one key. -/
def controllerWith (env : Env) (key : String) : controller :=
  { env := env, queue := WorkQueue.new.Add key, log := [] }

/-- An ingress `ns/web` without owner references. -/
def ingUnowned : Ingress :=
  { ingSvc1 with Name := "web", ownerReferences := [] }

/-- An ingress `ns/web` whose controlling owner is a Deployment. -/
def ingOtherOwner : Ingress :=
  { ingSvc1 with
    Name := "web"
    ownerReferences := [{ NewControllerRef svcMarked "Deployment" with apiVersion := "apps/v1" }] }

/-- The queue in which `Get` has just handed out `key` from a fresh single-item queue. -/
def queueHandedOut (key : String) : WorkQueue :=
  { queue := [], dirty := [], processing := [key], shuttingDown := false
    waiting := [], failures := fun _ => 0 }

/-! ## Passes of a worker over one key -/

/-- A queue that holds nothing but the given queued and waiting items, none of them
being processed, and is not shutting down. -/
def WorkQueue.only (queue waiting : List String) (failures : String → Nat) : WorkQueue :=
  { queue := queue, dirty := queue, processing := [], shuttingDown := false
    waiting := waiting, failures := failures }

/-- One pass over `key`: its delay, if it waits, elapses, and a worker runs
`processNextItem` while the listers and the client answer as `env`. -/
def reconcilePass (key : String) (env : Env) (c : controller) : Option controller :=
  match processNextItem { c with env := env, queue := c.queue.deliver key } with
  | some (_, c1) => some c1
  | none => none

/-- Consecutive passes over `key`, one per list element. -/
def reconcilePasses (key : String) : List Env → controller → Option controller
  | [], c => some c
  | env :: rest, c =>
    match reconcilePass key env c with
    | some c1 => reconcilePasses key rest c1
    | none => none

/-- The key is the only item of the queue, queued or waiting for its delay, with
requeue count `n`. -/
def Pending (c : controller) (key : String) (n : Nat) : Prop :=
  c.queue.NumRequeues key = n ∧
  c.queue.deliver key = WorkQueue.only [key] [] c.queue.failures

/-- The queue holds nothing, and the requeue count of the key is `n`. -/
def Idle (c : controller) (key : String) (n : Nat) : Prop :=
  c.queue.NumRequeues key = n ∧ c.queue = WorkQueue.only [] [] c.queue.failures

/-! ## Facts about keys -/

theorem splitSlash_append (a b : String) (ha : '/' ∉ a.data) (hb : '/' ∉ b.data) :
    splitSlash (a ++ "/" ++ b) = [a.data, b.data] := by
  have h1 : (a ++ "/" ++ b).data = a.data ++ '/' :: b.data := by
    simp [String.data_append]
  have hsep : (fun c : Char => c == '/') '/' = true := by simp
  have hfirst := List.splitOnP_first (fun c : Char => c == '/') a.data
    (fun x hx hp => ha (by rw [← eq_of_beq hp]; exact hx)) '/' hsep b.data
  have hlast := List.splitOnP_eq_single (fun c : Char => c == '/') b.data
    (fun x hx hp => hb (by rw [← eq_of_beq hp]; exact hx))
  unfold splitSlash
  rw [h1]
  show List.splitOnP (fun c : Char => c == '/') (a.data ++ '/' :: b.data) = _
  rw [hfirst, hlast]

theorem splitSlash_single (b : String) (hb : '/' ∉ b.data) :
    splitSlash b = [b.data] := by
  unfold splitSlash
  exact List.splitOnP_eq_single (fun c : Char => c == '/') b.data
    (fun x hx hp => hb (by rw [← eq_of_beq hp]; exact hx))

/-- Splitting the key of an object whose namespace and name hold no slash gives the
namespace and the name back. -/
theorem split_key (ns name : String) (hns : '/' ∉ ns.data) (hname : '/' ∉ name.data) :
    SplitMetaNamespaceKey (MetaNamespaceKeyFunc ns name) = .ok (ns, name) := by
  unfold MetaNamespaceKeyFunc SplitMetaNamespaceKey
  by_cases h : ns.length > 0
  · rw [if_pos h, splitSlash_append ns name hns hname]
  · rw [if_neg h, splitSlash_single name hname]
    have h0 : ns = "" := by
      have : ns.data = [] := by
        have hl : ns.data.length = 0 := by
          have := h
          simp only [String.length] at this
          omega
        exact List.length_eq_zero.mp hl
      cases ns
      simp_all
    simp [h0]

/-! ## Facts about `syncService` -/

theorem hasMarker_iff (s : Service) :
    hasMarker s = true ↔ ∃ v, ("ingress/http", v) ∈ s.annotations := by
  unfold hasMarker
  rw [List.any_eq_true]
  constructor
  · rintro ⟨⟨k, v⟩, hmem, hk⟩
    have : k = "ingress/http" := by simpa using hk
    exact ⟨v, this ▸ hmem⟩
  · rintro ⟨v, hv⟩
    exact ⟨("ingress/http", v), hv, by simp⟩

theorem hasMarker_eq_false (s : Service)
    (h : ∀ v, ("ingress/http", v) ∉ s.annotations) : hasMarker s = false := by
  cases hm : hasMarker s
  · rfl
  · obtain ⟨v, hv⟩ := (hasMarker_iff s).mp hm
    exact absurd hv (h v)

/-- The trace and result of `syncService` once key, service and ingress lookup are
known, create path. -/
theorem syncService_create_path (env : Env) (key ns name : String) (svc : Service)
    (hsplit : SplitMetaNamespaceKey key = .ok (ns, name))
    (hsvc : env.serviceGet ns name = .ok svc) (hmark : hasMarker svc = true)
    (hing : env.ingressGet ns name = .error Err.notFound) :
    syncService env key =
      (env.ingressCreate ns (constructIngress svc),
        [Call.getService ns name, Call.getIngress ns name,
          Call.create ns (constructIngress svc)]) := by
  unfold syncService
  simp only [hsplit, hsvc, hing, hmark, IsNotFound]
  cases h : env.ingressCreate ns (constructIngress svc) <;> simp

/-- The trace and result of `syncService` on the delete path. -/
theorem syncService_delete_path (env : Env) (key ns name : String) (svc : Service)
    (ig : Ingress)
    (hsplit : SplitMetaNamespaceKey key = .ok (ns, name))
    (hsvc : env.serviceGet ns name = .ok svc) (hmark : hasMarker svc = false)
    (hing : env.ingressGet ns name = .ok ig) :
    syncService env key =
      (env.ingressDelete ns name,
        [Call.getService ns name, Call.getIngress ns name, Call.delete ns name]) := by
  unfold syncService
  simp only [hsplit, hsvc, hing, hmark, IsNotFound]
  cases h : env.ingressDelete ns name <;> simp

/-- Marker present and ingress present: two lookups, nil. -/
theorem syncService_keep_path (env : Env) (key ns name : String) (svc : Service)
    (ig : Ingress)
    (hsplit : SplitMetaNamespaceKey key = .ok (ns, name))
    (hsvc : env.serviceGet ns name = .ok svc) (hmark : hasMarker svc = true)
    (hing : env.ingressGet ns name = .ok ig) :
    syncService env key =
      (none, [Call.getService ns name, Call.getIngress ns name]) := by
  unfold syncService
  simp [hsplit, hsvc, hing, hmark, IsNotFound]

/-- Marker absent and ingress not found: two lookups, nil. -/
theorem syncService_absent_path (env : Env) (key ns name : String) (svc : Service)
    (hsplit : SplitMetaNamespaceKey key = .ok (ns, name))
    (hsvc : env.serviceGet ns name = .ok svc) (hmark : hasMarker svc = false)
    (hing : env.ingressGet ns name = .error Err.notFound) :
    syncService env key =
      (none, [Call.getService ns name, Call.getIngress ns name]) := by
  unfold syncService
  simp [hsplit, hsvc, hing, hmark, IsNotFound]

/-- An ingress lookup error other than not-found is returned after the two lookups. -/
theorem syncService_ingress_error (env : Env) (key ns name : String) (svc : Service)
    (e : Err)
    (hsplit : SplitMetaNamespaceKey key = .ok (ns, name))
    (hsvc : env.serviceGet ns name = .ok svc)
    (hing : env.ingressGet ns name = .error e) (he : e ≠ Err.notFound) :
    syncService env key =
      (some e, [Call.getService ns name, Call.getIngress ns name]) := by
  unfold syncService
  have hnf : IsNotFound (some e) = false := by
    cases e <;> simp_all [IsNotFound]
  simp [hsplit, hsvc, hing, hnf]

/-- A service lookup error ends `syncService` after that lookup. -/
theorem syncService_service_error (env : Env) (key ns name : String) (e : Err)
    (hsplit : SplitMetaNamespaceKey key = .ok (ns, name))
    (hsvc : env.serviceGet ns name = .error e) :
    syncService env key = (some e, [Call.getService ns name]) := by
  unfold syncService
  simp [hsplit, hsvc]

/-- A key that cannot be split ends `syncService` before any call. -/
theorem syncService_key_error (env : Env) (key : String) (e : Err)
    (hsplit : SplitMetaNamespaceKey key = .error e) :
    syncService env key = (some e, []) := by
  unfold syncService
  simp [hsplit]

/-- In every case `syncService` makes at most one Create or Delete call. -/
theorem syncService_mutating_le_one (env : Env) (key : String) :
    ((syncService env key).2.filter Call.isMutating).length ≤ 1 := by
  cases hsplit : SplitMetaNamespaceKey key with
  | error e => simp [syncService_key_error env key e hsplit]
  | ok p =>
    obtain ⟨ns, name⟩ := p
    cases hsvc : env.serviceGet ns name with
    | error e =>
      simp [syncService_service_error env key ns name e hsplit hsvc, Call.isMutating,
        Call.isCreate, Call.isDelete]
    | ok svc =>
      cases hing : env.ingressGet ns name with
      | error e =>
        by_cases he : e = Err.notFound
        · subst he
          cases hmark : hasMarker svc
          · simp [syncService_absent_path env key ns name svc hsplit hsvc hmark hing,
              Call.isMutating, Call.isCreate, Call.isDelete]
          · simp [syncService_create_path env key ns name svc hsplit hsvc hmark hing,
              Call.isMutating, Call.isCreate, Call.isDelete]
        · simp [syncService_ingress_error env key ns name svc e hsplit hsvc hing he,
            Call.isMutating, Call.isCreate, Call.isDelete]
      | ok ig =>
        cases hmark : hasMarker svc
        · simp [syncService_delete_path env key ns name svc ig hsplit hsvc hmark hing,
            Call.isMutating, Call.isCreate, Call.isDelete]
        · simp [syncService_keep_path env key ns name svc ig hsplit hsvc hmark hing,
            Call.isMutating, Call.isCreate, Call.isDelete]

/-! ## The claims about `syncService` -/

/-- C1: for a service `P` found in the cache under its own namespace and name, carrying
the annotation key `ingress/http`, whose ingress lookup answers not-found,
`syncService (key P)` makes exactly one Create call and no Delete call; the created
ingress has the name and namespace of `P`, exactly one owner reference, which is a
controller reference of kind `Service` to `P`, and a single rule with the single path
`/` whose backend is the service `P.Name` on port 80.  (Names and namespaces of
Kubernetes objects hold no slash.) -/
theorem syncService_creates_owned_ingress (env : Env) (P : Service)
    (hns : '/' ∉ P.Namespace.data) (hname : '/' ∉ P.Name.data)
    (hfound : env.serviceGet P.Namespace P.Name = .ok P)
    (hmarker : ∃ v, ("ingress/http", v) ∈ P.annotations)
    (habsent : env.ingressGet P.Namespace P.Name = .error Err.notFound) :
    ∃ ig r rule p,
      (syncService env (MetaNamespaceKeyFunc P.Namespace P.Name)).2.filter Call.isCreate
        = [Call.create P.Namespace ig] ∧
      (syncService env (MetaNamespaceKeyFunc P.Namespace P.Name)).2.filter Call.isDelete
        = [] ∧
      ig.Name = P.Name ∧ ig.Namespace = P.Namespace ∧
      ig.ownerReferences = [r] ∧ GetControllerOf ig = some r ∧
      r.controller = some true ∧ r.kind = "Service" ∧ r.name = P.Name ∧ r.uid = P.uid ∧
      ig.spec.rules = [rule] ∧ rule.http = some { paths := [p] } ∧
      p.path = "/" ∧
      p.backend.service = some { name := P.Name, port := { name := "", number := 80 } } := by
  have hsplit := split_key P.Namespace P.Name hns hname
  have hmark := (hasMarker_iff P).mpr hmarker
  refine ⟨constructIngress P, NewControllerRef P "Service", _, _, ?_, ?_, rfl, rfl, rfl, ?_,
    rfl, rfl, rfl, rfl, rfl, rfl, rfl, rfl⟩
  · rw [syncService_create_path env _ _ _ P hsplit hfound hmark habsent]
    simp [Call.isCreate]
  · rw [syncService_create_path env _ _ _ P hsplit hfound hmark habsent]
    simp [Call.isDelete]
  · simp [GetControllerOf, constructIngress, NewControllerRef]

theorem syncService_creates_owned_ingress_witness :
    ∃ ig r rule p,
      (syncService clusterMarkedOnly.env
          (MetaNamespaceKeyFunc svcMarked.Namespace svcMarked.Name)).2.filter Call.isCreate
        = [Call.create svcMarked.Namespace ig] ∧
      (syncService clusterMarkedOnly.env
          (MetaNamespaceKeyFunc svcMarked.Namespace svcMarked.Name)).2.filter Call.isDelete
        = [] ∧
      ig.Name = svcMarked.Name ∧ ig.Namespace = svcMarked.Namespace ∧
      ig.ownerReferences = [r] ∧ GetControllerOf ig = some r ∧
      r.controller = some true ∧ r.kind = "Service" ∧ r.name = svcMarked.Name ∧
      r.uid = svcMarked.uid ∧
      ig.spec.rules = [rule] ∧ rule.http = some { paths := [p] } ∧
      p.path = "/" ∧
      p.backend.service =
        some { name := svcMarked.Name, port := { name := "", number := 80 } } :=
  syncService_creates_owned_ingress clusterMarkedOnly.env svcMarked
    (by decide) (by decide) rfl ⟨"true", by decide⟩ rfl

/-- C2: for a service `P` found in the cache without the annotation key `ingress/http`
whose ingress of the same namespace and name is found in the cache,
`syncService (key P)` makes exactly one Delete call, for that name in that namespace,
and no Create call. -/
theorem syncService_deletes_unwanted_ingress (env : Env) (P : Service) (ig : Ingress)
    (hns : '/' ∉ P.Namespace.data) (hname : '/' ∉ P.Name.data)
    (hfound : env.serviceGet P.Namespace P.Name = .ok P)
    (hnomarker : ∀ v, ("ingress/http", v) ∉ P.annotations)
    (hpresent : env.ingressGet P.Namespace P.Name = .ok ig) :
    (syncService env (MetaNamespaceKeyFunc P.Namespace P.Name)).2.filter Call.isDelete
      = [Call.delete P.Namespace P.Name] ∧
    (syncService env (MetaNamespaceKeyFunc P.Namespace P.Name)).2.filter Call.isCreate
      = [] := by
  have hsplit := split_key P.Namespace P.Name hns hname
  rw [syncService_delete_path env _ _ _ P ig hsplit hfound
    (hasMarker_eq_false P hnomarker) hpresent]
  simp [Call.isDelete, Call.isCreate]

theorem syncService_deletes_unwanted_ingress_witness :
    (syncService clusterPlainBoth.env
        (MetaNamespaceKeyFunc svcPlain.Namespace svcPlain.Name)).2.filter Call.isDelete
      = [Call.delete svcPlain.Namespace svcPlain.Name] ∧
    (syncService clusterPlainBoth.env
        (MetaNamespaceKeyFunc svcPlain.Namespace svcPlain.Name)).2.filter Call.isCreate
      = [] :=
  syncService_deletes_unwanted_ingress clusterPlainBoth.env svcPlain ingSvc1
    (by decide) (by decide) rfl (by intro v hv; cases hv) rfl

/-- C3: for a well-formed key whose service is found in the cache, when the marker is
present and the ingress exists, or the marker is absent and the ingress lookup answers
not-found, `syncService` makes no Create and no Delete call and returns nil; and in
every case `syncService` makes at most one mutating call. -/
theorem syncService_noop_cases (env : Env) (key ns name : String) (svc : Service)
    (hsplit : SplitMetaNamespaceKey key = .ok (ns, name))
    (hfound : env.serviceGet ns name = .ok svc)
    (hcase :
      ((∃ v, ("ingress/http", v) ∈ svc.annotations) ∧ ∃ ig, env.ingressGet ns name = .ok ig) ∨
      ((∀ v, ("ingress/http", v) ∉ svc.annotations) ∧
        env.ingressGet ns name = .error Err.notFound)) :
    (syncService env key).2.filter Call.isCreate = [] ∧
    (syncService env key).2.filter Call.isDelete = [] ∧
    (syncService env key).1 = none ∧
    ∀ (env1 : Env) (key1 : String),
      ((syncService env1 key1).2.filter Call.isMutating).length ≤ 1 := by
  rcases hcase with ⟨hm, ig, hing⟩ | ⟨hm, hing⟩
  · rw [syncService_keep_path env key ns name svc ig hsplit hfound
      ((hasMarker_iff svc).mpr hm) hing]
    exact ⟨by simp [Call.isCreate], by simp [Call.isDelete], rfl,
      syncService_mutating_le_one⟩
  · rw [syncService_absent_path env key ns name svc hsplit hfound
      (hasMarker_eq_false svc hm) hing]
    exact ⟨by simp [Call.isCreate], by simp [Call.isDelete], rfl,
      syncService_mutating_le_one⟩

theorem syncService_noop_cases_witness :
    (syncService clusterMarkedBoth.env "ns/svc1").2.filter Call.isCreate = [] ∧
    (syncService clusterMarkedBoth.env "ns/svc1").2.filter Call.isDelete = [] ∧
    (syncService clusterMarkedBoth.env "ns/svc1").1 = none ∧
    ((syncService clusterMarkedOnly.env "ns/svc1").2.filter Call.isMutating).length ≤ 1 :=
  have h := syncService_noop_cases clusterMarkedBoth.env "ns/svc1" "ns" "svc1" svcMarked
    rfl rfl (Or.inl ⟨⟨"true", by decide⟩, ingSvc1, rfl⟩)
  ⟨h.1, h.2.1, h.2.2.1, h.2.2.2 clusterMarkedOnly.env "ns/svc1"⟩

/-- C4, as stated, fails: with the service `ns/svc1` not found and an ingress `ns/svc1`
in the cache, `syncService` neither looks the ingress up nor deletes it. -/
theorem syncService_missing_service_no_cleanup :
    ¬ (∀ (env : Env) (key ns name : String) (ig : Ingress),
        SplitMetaNamespaceKey key = .ok (ns, name) →
        env.serviceGet ns name = .error Err.notFound →
        env.ingressGet ns name = .ok ig →
        Call.getIngress ns name ∈ (syncService env key).2 ∧
        Call.delete ns name ∈ (syncService env key).2) := by
  intro h
  have h1 := (h clusterOrphan.env "ns/svc1" "ns" "svc1" ingSvc1 rfl rfl rfl).2
  have h2 : (syncService clusterOrphan.env "ns/svc1").2 = [Call.getService "ns" "svc1"] := rfl
  rw [h2] at h1
  simp at h1

/-- C4, amended: for a well-formed key whose service is not found in the cache,
`syncService` stops at the service lookup: that lookup is its only call, so the
ingress is not looked up and no Create or Delete call is made. -/
theorem syncService_stops_at_missing_service (env : Env) (key ns name : String)
    (hsplit : SplitMetaNamespaceKey key = .ok (ns, name))
    (hgone : env.serviceGet ns name = .error Err.notFound) :
    (syncService env key).2 = [Call.getService ns name] ∧
    Call.getIngress ns name ∉ (syncService env key).2 ∧
    (syncService env key).2.filter Call.isMutating = [] := by
  rw [syncService_service_error env key ns name Err.notFound hsplit hgone]
  simp [Call.isMutating, Call.isCreate, Call.isDelete]

theorem syncService_stops_at_missing_service_witness :
    (syncService clusterOrphan.env "ns/svc1").2 = [Call.getService "ns" "svc1"] ∧
    Call.getIngress "ns" "svc1" ∉ (syncService clusterOrphan.env "ns/svc1").2 ∧
    (syncService clusterOrphan.env "ns/svc1").2.filter Call.isMutating = [] :=
  syncService_stops_at_missing_service clusterOrphan.env "ns/svc1" "ns" "svc1" rfl rfl

/-! ## Two reconciliations in a row -/

theorem Cluster.serviceGet_of_find (st : Cluster) (ns name : String) (svc : Service)
    (h : st.services.find? (Service.at ns name) = some svc) :
    st.env.serviceGet ns name = .ok svc := by
  simp [Cluster.env, h]

theorem Cluster.serviceGet_of_find_none (st : Cluster) (ns name : String)
    (h : st.services.find? (Service.at ns name) = none) :
    st.env.serviceGet ns name = .error Err.notFound := by
  simp [Cluster.env, h]

theorem Cluster.ingressGet_of_find (st : Cluster) (ns name : String) (ig : Ingress)
    (h : st.ingresses.find? (Ingress.at ns name) = some ig) :
    st.env.ingressGet ns name = .ok ig := by
  simp [Cluster.env, h]

theorem Cluster.ingressGet_of_find_none (st : Cluster) (ns name : String)
    (h : st.ingresses.find? (Ingress.at ns name) = none) :
    st.env.ingressGet ns name = .error Err.notFound := by
  simp [Cluster.env, h]

/-- After a Create that the lookup justified, the ingress is found. -/
theorem Cluster.find_after_create (st : Cluster) (ns name : String) (svc : Service)
    (hsvc : st.services.find? (Service.at ns name) = some svc)
    (hing : st.ingresses.find? (Ingress.at ns name) = none) :
    (st.apply (Call.create ns (constructIngress svc))).services = st.services ∧
    (st.apply (Call.create ns (constructIngress svc))).ingresses.find? (Ingress.at ns name)
      = some (constructIngress svc) := by
  have hat : Service.at ns name svc = true := List.find?_some hsvc
  have hat2 : svc.Namespace = ns ∧ svc.Name = name := by
    simpa [Service.at] using hat
  have hnone : ∀ x ∈ st.ingresses, ¬ (Ingress.at ns name x = true) := by
    simpa [List.find?_eq_none] using hing
  have hany : st.ingresses.any (Ingress.at ns name) = false := by
    rw [Bool.eq_false_iff]
    intro hx
    obtain ⟨x, hx1, hx2⟩ := List.any_eq_true.mp hx
    exact hnone x hx1 hx2
  have hcreate : st.env.ingressCreate ns (constructIngress svc) = none := by
    have hany2 : st.ingresses.any (Ingress.at ns svc.Name) = false := by
      rw [hat2.2]; exact hany
    show (if (constructIngress svc).Namespace != ns then some Err.badRequest
      else if st.ingresses.any (Ingress.at ns (constructIngress svc).Name) then
        some Err.alreadyExists
      else none) = none
    have hn : ((constructIngress svc).Namespace != ns) = false := by
      simp [constructIngress, hat2.1]
    have hname : (constructIngress svc).Name = svc.Name := rfl
    rw [hn, hname, hany2]
    rfl
  have hnew : Ingress.at ns name (constructIngress svc) = true := by
    simp [Ingress.at, constructIngress, hat2.1, hat2.2]
  constructor
  · simp only [Cluster.apply, hcreate]
  · simp only [Cluster.apply, hcreate]
    rw [List.find?_append, hing]
    simp [List.find?, hnew]

/-- After a Delete, the ingress is not found. -/
theorem Cluster.find_after_delete (st : Cluster) (ns name : String) :
    (st.apply (Call.delete ns name)).services = st.services ∧
    (st.apply (Call.delete ns name)).ingresses.find? (Ingress.at ns name) = none := by
  refine ⟨rfl, ?_⟩
  simp only [Cluster.apply]
  rw [List.find?_eq_none]
  intro x hx
  have := (List.mem_filter.mp hx).2
  simpa using this

/-- C5: on a cluster whose caches are up to date, where a first `syncService (key)` has
its Create or Delete applied (it succeeds and the second call's lookups see it), a
second `syncService (key)` makes no mutating call, and both calls together make at
most one. -/
theorem syncService_idempotent (st : Cluster) (key : String) :
    (syncOnCluster (syncOnCluster st key).2.2 key).2.1.filter Call.isMutating = [] ∧
    ((syncOnCluster st key).2.1.filter Call.isMutating).length +
      ((syncOnCluster (syncOnCluster st key).2.2 key).2.1.filter Call.isMutating).length
        ≤ 1 := by
  have hle := syncService_mutating_le_one st.env key
  suffices h : (syncOnCluster (syncOnCluster st key).2.2 key).2.1.filter Call.isMutating
      = [] by
    rw [h]
    simpa [syncOnCluster] using hle
  simp only [syncOnCluster]
  cases hsplit : SplitMetaNamespaceKey key with
  | error e =>
    rw [syncService_key_error _ key e hsplit]
    rfl
  | ok p =>
    obtain ⟨ns, name⟩ := p
    cases hs : st.services.find? (Service.at ns name) with
    | none =>
      have h1 := syncService_service_error st.env key ns name _ hsplit
        (st.serviceGet_of_find_none ns name hs)
      rw [h1]
      simp only [List.foldl, Cluster.apply]
      rw [h1]
      simp [Call.isMutating, Call.isCreate, Call.isDelete]
    | some svc =>
      have hsvc := st.serviceGet_of_find ns name svc hs
      cases hi : st.ingresses.find? (Ingress.at ns name) with
      | none =>
        have hing := st.ingressGet_of_find_none ns name hi
        cases hmark : hasMarker svc with
        | false =>
          have h1 := syncService_absent_path st.env key ns name svc hsplit hsvc hmark hing
          rw [h1]
          simp only [List.foldl, Cluster.apply]
          rw [h1]
          simp [Call.isMutating, Call.isCreate, Call.isDelete]
        | true =>
          have h1 := syncService_create_path st.env key ns name svc hsplit hsvc hmark hing
          rw [h1]
          simp only [List.foldl]
          have hst : Cluster.apply (Cluster.apply (Cluster.apply st (Call.getService ns name))
              (Call.getIngress ns name)) (Call.create ns (constructIngress svc))
              = st.apply (Call.create ns (constructIngress svc)) := rfl
          rw [hst]
          obtain ⟨hs2, hi2⟩ := st.find_after_create ns name svc hs hi
          have h2 := syncService_keep_path
            (st.apply (Call.create ns (constructIngress svc))).env key ns name svc
            (constructIngress svc) hsplit
            (Cluster.serviceGet_of_find _ ns name svc (by rw [hs2]; exact hs)) hmark
            (Cluster.ingressGet_of_find _ ns name _ hi2)
          rw [h2]
          simp [Call.isMutating, Call.isCreate, Call.isDelete]
      | some ig =>
        have hing := st.ingressGet_of_find ns name ig hi
        cases hmark : hasMarker svc with
        | true =>
          have h1 := syncService_keep_path st.env key ns name svc ig hsplit hsvc hmark hing
          rw [h1]
          simp only [List.foldl, Cluster.apply]
          rw [h1]
          simp [Call.isMutating, Call.isCreate, Call.isDelete]
        | false =>
          have h1 := syncService_delete_path st.env key ns name svc ig hsplit hsvc hmark hing
          rw [h1]
          simp only [List.foldl]
          have hst : Cluster.apply (Cluster.apply (Cluster.apply st (Call.getService ns name))
              (Call.getIngress ns name)) (Call.delete ns name)
              = st.apply (Call.delete ns name) := rfl
          rw [hst]
          obtain ⟨hs2, hi2⟩ := st.find_after_delete ns name
          have h2 := syncService_absent_path
            (st.apply (Call.delete ns name)).env key ns name svc hsplit
            (Cluster.serviceGet_of_find _ ns name svc (by rw [hs2]; exact hs)) hmark
            (Cluster.ingressGet_of_find_none _ ns name hi2)
          rw [h2]
          simp [Call.isMutating, Call.isCreate, Call.isDelete]

/-! ## Facts about the queue and `processNextItem` -/

theorem WorkQueue.Done_failures (q : WorkQueue) (k : String) :
    (q.Done k).failures = q.failures := by
  unfold WorkQueue.Done
  split <;> rfl

theorem WorkQueue.Done_waiting (q : WorkQueue) (k : String) :
    (q.Done k).waiting = q.waiting := by
  unfold WorkQueue.Done
  split <;> rfl

theorem WorkQueue.AddRateLimited_failures (q : WorkQueue) (k : String) :
    (q.AddRateLimited k).failures k = q.failures k + 1 := by
  unfold WorkQueue.AddRateLimited
  split
  · simp
  · split <;> simp

theorem WorkQueue.AddRateLimited_waiting (q : WorkQueue) (k : String)
    (h : q.shuttingDown = false) : k ∈ (q.AddRateLimited k).waiting := by
  unfold WorkQueue.AddRateLimited
  rw [h]
  by_cases hk : k ∈ q.waiting
  · simp [hk]
  · simp [hk]

theorem WorkQueue.Forget_failures (q : WorkQueue) (k : String) :
    (q.Forget k).failures k = 0 := by
  simp [WorkQueue.Forget]

theorem controllerWith_pending (env : Env) (key : String) :
    Pending (controllerWith env key) key 0 := by
  simp [Pending, controllerWith, WorkQueue.new, WorkQueue.Add, WorkQueue.NumRequeues,
    WorkQueue.deliver, WorkQueue.only]

/-- The queue after `Get` handed out the only item. -/
theorem get_only (key : String) (f : String → Nat) :
    (WorkQueue.only [key] [] f).Get =
      GetResult.item key
        { queue := [], dirty := [], processing := [key], shuttingDown := false
          waiting := [], failures := f } := by
  simp [WorkQueue.Get, WorkQueue.only]

/-- What `processNextItem` does when `Get` hands out `key` and `syncService` fails. -/
theorem processNextItem_error (c : controller) (key : String) (q : WorkQueue) (e : Err)
    (calls : List Call)
    (hget : c.queue.Get = GetResult.item key q)
    (hsync : syncService c.env key = (some e, calls)) :
    processNextItem c = some (true,
      controller.queueDone
        (handlerError
          { env := c.env, queue := q
            log := c.log ++ [Event.queueGet key] ++ calls.map Event.api } key e) key) := by
  simp [processNextItem, hget, hsync]

/-- What `processNextItem` does when `Get` hands out `key` and `syncService` succeeds. -/
theorem processNextItem_ok (c : controller) (key : String) (q : WorkQueue)
    (calls : List Call)
    (hget : c.queue.Get = GetResult.item key q)
    (hsync : syncService c.env key = (none, calls)) :
    processNextItem c = some (true,
      controller.queueDone
        { env := c.env, queue := q
          log := c.log ++ [Event.queueGet key] ++ calls.map Event.api } key) := by
  simp [processNextItem, hget, hsync]

/-- A failing pass below the ceiling: the key is re-queued through `AddRateLimited`. -/
theorem reconcilePass_requeue (c : controller) (key : String) (env : Env) (e : Err)
    (calls : List Call) (n : Nat)
    (hp : Pending c key n) (hsync : syncService env key = (some e, calls))
    (hle : n ≤ maxRetry) :
    ∃ c1, reconcilePass key env c = some c1 ∧ Pending c1 key (n + 1) ∧
      c1.log = c.log ++ [Event.queueGet key] ++ calls.map Event.api ++
        [Event.queueAddRateLimited key, Event.queueDone key] := by
  obtain ⟨hn, hq⟩ := hp
  have hpass : reconcilePass key env c = some
      (controller.queueDone
        (handlerError
          { env := env
            queue := { queue := [], dirty := [], processing := [key], shuttingDown := false
                       waiting := [], failures := c.queue.failures }
            log := c.log ++ [Event.queueGet key] ++ calls.map Event.api } key e) key) := by
    unfold reconcilePass
    rw [processNextItem_error { c with env := env, queue := c.queue.deliver key } key _ e
      calls (by rw [hq]; exact get_only key _) hsync]
  refine ⟨_, hpass, ?_, ?_⟩
  · have hn1 : c.queue.failures key = n := hn
    simp [Pending, handlerError, WorkQueue.NumRequeues, hn1, hle, controller.queueDone,
      controller.queueAddRateLimited, WorkQueue.AddRateLimited, WorkQueue.Done,
      WorkQueue.deliver, WorkQueue.Add, WorkQueue.only]
  · have hn1 : c.queue.failures key = n := hn
    simp [handlerError, WorkQueue.NumRequeues, hn1, hle, controller.queueDone,
      controller.queueAddRateLimited]

/-- A failing pass above the ceiling: the error is logged and the key forgotten. -/
theorem reconcilePass_forget (c : controller) (key : String) (env : Env) (e : Err)
    (calls : List Call) (n : Nat)
    (hp : Pending c key n) (hsync : syncService env key = (some e, calls))
    (hgt : maxRetry < n) :
    ∃ c1, reconcilePass key env c = some c1 ∧ Idle c1 key 0 ∧
      c1.log = c.log ++ [Event.queueGet key] ++ calls.map Event.api ++
        [Event.handleError e, Event.queueForget key, Event.queueDone key] := by
  obtain ⟨hn, hq⟩ := hp
  have hpass : reconcilePass key env c = some
      (controller.queueDone
        (handlerError
          { env := env
            queue := { queue := [], dirty := [], processing := [key], shuttingDown := false
                       waiting := [], failures := c.queue.failures }
            log := c.log ++ [Event.queueGet key] ++ calls.map Event.api } key e) key) := by
    unfold reconcilePass
    rw [processNextItem_error { c with env := env, queue := c.queue.deliver key } key _ e
      calls (by rw [hq]; exact get_only key _) hsync]
  have hn1 : c.queue.failures key = n := hn
  have hnle : ¬ (n ≤ maxRetry) := by omega
  refine ⟨_, hpass, ?_, ?_⟩
  · simp [Idle, handlerError, WorkQueue.NumRequeues, hn1, hnle, controller.queueDone,
      controller.queueForget, WorkQueue.Forget, WorkQueue.Done, WorkQueue.only]
  · simp [handlerError, WorkQueue.NumRequeues, hn1, hnle, controller.queueDone,
      controller.queueForget]

/-- A successful pass: no call to the rate limiter, the count stays. -/
theorem reconcilePass_success (c : controller) (key : String) (env : Env)
    (calls : List Call) (n : Nat)
    (hp : Pending c key n) (hsync : syncService env key = (none, calls)) :
    ∃ c1, reconcilePass key env c = some c1 ∧ Idle c1 key n ∧
      c1.log = c.log ++ [Event.queueGet key] ++ calls.map Event.api ++
        [Event.queueDone key] := by
  obtain ⟨hn, hq⟩ := hp
  have hpass : reconcilePass key env c = some
      (controller.queueDone
          { env := env
            queue := { queue := [], dirty := [], processing := [key], shuttingDown := false
                       waiting := [], failures := c.queue.failures }
            log := c.log ++ [Event.queueGet key] ++ calls.map Event.api } key) := by
    unfold reconcilePass
    rw [processNextItem_ok { c with env := env, queue := c.queue.deliver key } key _
      calls (by rw [hq]; exact get_only key _) hsync]
  have hn1 : c.queue.failures key = n := hn
  refine ⟨_, hpass, ?_, ?_⟩
  · simp [Idle, WorkQueue.NumRequeues, hn1, controller.queueDone, WorkQueue.Done,
      WorkQueue.only]
  · simp [controller.queueDone]

theorem count_api (calls : List Call) (ev : Event) (h : ev.isApi = false) :
    (calls.map Event.api).count ev = 0 := by
  rw [List.count_eq_zero]
  intro hmem
  obtain ⟨x, _, hx⟩ := List.mem_map.mp hmem
  rw [← hx] at h
  simp [Event.isApi] at h

/-- Failing passes while the count stays within the ceiling: every pass re-queues the
key once and none forgets it. -/
theorem reconcilePasses_failing (key : String) (env : Env) (e : Err) (calls : List Call)
    (hsync : syncService env key = (some e, calls)) (k : Nat) :
    ∀ (c : controller) (n : Nat), Pending c key n → n + k ≤ maxRetry + 1 →
      ∃ c1, reconcilePasses key (List.replicate k env) c = some c1 ∧
        Pending c1 key (n + k) ∧
        c1.log.count (Event.queueAddRateLimited key) =
          c.log.count (Event.queueAddRateLimited key) + k ∧
        c1.log.count (Event.queueForget key) = c.log.count (Event.queueForget key) := by
  induction k with
  | zero =>
    intro c n hp _
    exact ⟨c, rfl, hp, rfl, rfl⟩
  | succ k ih =>
    intro c n hp hle
    obtain ⟨c1, h1, hp1, hlog1⟩ :=
      reconcilePass_requeue c key env e calls n hp hsync (by omega)
    obtain ⟨c2, h2, hp2, hadd, hforget⟩ := ih c1 (n + 1) hp1 (by omega)
    refine ⟨c2, ?_, ?_, ?_, ?_⟩
    · simp only [List.replicate, reconcilePasses, h1]
      exact h2
    · have : n + (k + 1) = n + 1 + k := by omega
      rw [this]
      exact hp2
    · have h0 := count_api calls (Event.queueAddRateLimited key) rfl
      rw [hadd, hlog1]
      simp [List.count_append, h0, List.count_cons]
      omega
    · have h0 := count_api calls (Event.queueForget key) rfl
      rw [hforget, hlog1]
      simp [List.count_append, h0, List.count_cons]

theorem reconcilePasses_append (key : String) (l1 l2 : List Env) :
    ∀ (c c1 : controller), reconcilePasses key l1 c = some c1 →
      reconcilePasses key (l1 ++ l2) c = reconcilePasses key l2 c1 := by
  induction l1 with
  | nil =>
    intro c c1 h
    simp only [reconcilePasses, Option.some.injEq] at h
    simp [h]
  | cons env rest ih =>
    intro c c1 h
    simp only [List.cons_append, reconcilePasses] at h ⊢
    cases hp : reconcilePass key env c with
    | none => simp [hp] at h
    | some c0 =>
      simp only [hp] at h ⊢
      exact ih c0 c1 h

/-- Re-adding a key to an empty idle queue leaves its count and makes it pending. -/
theorem idle_queueAdd (c : controller) (key : String) (n : Nat) (h : Idle c key n) :
    Pending (c.queueAdd key) key n := by
  obtain ⟨hn, hq⟩ := h
  have hn1 : c.queue.failures key = n := hn
  have h1 : c.queue.shuttingDown = false := by rw [hq]; rfl
  have h2 : c.queue.dirty = [] := by rw [hq]; rfl
  have h3 : c.queue.processing = [] := by rw [hq]; rfl
  have h4 : c.queue.waiting = [] := by rw [hq]; rfl
  have h5 : c.queue.queue = [] := by rw [hq]; rfl
  simp [Pending, controller.queueAdd, WorkQueue.Add, WorkQueue.NumRequeues,
    WorkQueue.deliver, WorkQueue.only, h1, h2, h3, h4, h5, hn1]

/-! ## The claims about retries -/

/-- C6, the code at the failing input: the key `ns/svc1` fails on every pass, starting
from a fresh queue.  The first eleven passes each re-queue it through `AddRateLimited`
and none forgets it; the twelfth logs the error and calls `Forget` without re-queueing. -/
theorem handlerError_requeues_eleven_times :
    ∃ c11 c12,
      reconcilePasses "ns/svc1" (List.replicate 11 envFailing)
        (controllerWith envFailing "ns/svc1") = some c11 ∧
      c11.log.count (Event.queueAddRateLimited "ns/svc1") = 11 ∧
      c11.log.count (Event.queueForget "ns/svc1") = 0 ∧
      c11.queue.NumRequeues "ns/svc1" = 11 ∧
      reconcilePass "ns/svc1" envFailing c11 = some c12 ∧
      c12.log = c11.log ++
        [Event.queueGet "ns/svc1", Event.api (Call.getService "ns" "svc1"),
          Event.handleError (Err.other "cache unavailable"),
          Event.queueForget "ns/svc1", Event.queueDone "ns/svc1"] ∧
      c12.queue.NumRequeues "ns/svc1" = 0 := by
  have hsync : syncService envFailing "ns/svc1" =
      (some (Err.other "cache unavailable"), [Call.getService "ns" "svc1"]) := rfl
  obtain ⟨c11, h11, hp11, hadd, hforget⟩ :=
    reconcilePasses_failing "ns/svc1" envFailing _ _ hsync 11
      (controllerWith envFailing "ns/svc1") 0 (controllerWith_pending _ _) (by decide)
  obtain ⟨c12, h12, hidle, hlog⟩ :=
    reconcilePass_forget c11 "ns/svc1" envFailing _ _ 11 hp11 hsync (by decide)
  refine ⟨c11, c12, h11, ?_, ?_, hp11.1, h12, ?_, hidle.1⟩
  · rw [hadd]; rfl
  · rw [hforget]; rfl
  · rw [hlog]; simp

/-- C7, as stated, fails: the key `ns/svc1` fails once and then succeeds; the
successful pass calls no `Forget` and the requeue count is still 1; when the key is
enqueued and fails again, `handlerError` counts on from 1 and reaches 2. -/
theorem processNextItem_success_no_forget :
    ∃ c2 c3,
      reconcilePasses "ns/svc1" [envFailing, clusterMarkedBoth.env]
        (controllerWith envFailing "ns/svc1") = some c2 ∧
      Event.queueForget "ns/svc1" ∉ c2.log ∧
      c2.queue.NumRequeues "ns/svc1" = 1 ∧
      reconcilePass "ns/svc1" envFailing (c2.queueAdd "ns/svc1") = some c3 ∧
      c3.queue.NumRequeues "ns/svc1" = 2 := by
  have hfail : syncService envFailing "ns/svc1" =
      (some (Err.other "cache unavailable"), [Call.getService "ns" "svc1"]) := rfl
  have hok : syncService clusterMarkedBoth.env "ns/svc1" =
      (none, [Call.getService "ns" "svc1", Call.getIngress "ns" "svc1"]) := rfl
  obtain ⟨c1, h1, hp1, hlog1⟩ :=
    reconcilePass_requeue (controllerWith envFailing "ns/svc1") "ns/svc1" envFailing _ _ 0
      (controllerWith_pending _ _) hfail (by decide)
  obtain ⟨c2, h2, hidle2, hlog2⟩ :=
    reconcilePass_success c1 "ns/svc1" clusterMarkedBoth.env _ 1 hp1 hok
  obtain ⟨c3, h3, hp3, _⟩ :=
    reconcilePass_requeue (c2.queueAdd "ns/svc1") "ns/svc1" envFailing _ _ 1
      (idle_queueAdd c2 _ 1 hidle2) hfail (by decide)
  refine ⟨c2, c3, ?_, ?_, hidle2.1, h3, hp3.1⟩
  · simp only [reconcilePasses, h1, h2]
  · rw [hlog2, hlog1]
    simp [controllerWith]

/-- C7, amended: when `syncService (key)` returns no error, processing the item calls
neither `Forget` nor `AddRateLimited`, so the requeue count stays as it was: a key that
fails `k` times (`k` at most 11) and then succeeds has never been forgotten and has
requeue count `k`, also once it is enqueued again.  At a later failure `handlerError`
therefore reads the count `k`, not 0: for `k` at most 10 it re-queues the key and the
count becomes `k + 1`; for `k = 11` it logs the error and forgets the key. -/
theorem processNextItem_success_keeps_count (envFail envOk : Env) (key : String)
    (e : Err) (callsFail callsOk : List Call) (k : Nat)
    (hfail : syncService envFail key = (some e, callsFail))
    (hok : syncService envOk key = (none, callsOk))
    (hk : k ≤ maxRetry + 1) :
    ∃ c, reconcilePasses key (List.replicate k envFail ++ [envOk])
        (controllerWith envFail key) = some c ∧
      Event.queueForget key ∉ c.log ∧
      c.log.count (Event.queueAddRateLimited key) = k ∧
      c.queue.NumRequeues key = k ∧
      (c.queueAdd key).queue.NumRequeues key = k ∧
      ∃ c3, reconcilePass key envFail (c.queueAdd key) = some c3 ∧
        (k ≤ maxRetry →
          c3.queue.NumRequeues key = k + 1 ∧
          c3.log = (c.queueAdd key).log ++ [Event.queueGet key] ++
            callsFail.map Event.api ++
            [Event.queueAddRateLimited key, Event.queueDone key]) ∧
        (k = maxRetry + 1 →
          c3.queue.NumRequeues key = 0 ∧
          c3.log = (c.queueAdd key).log ++ [Event.queueGet key] ++
            callsFail.map Event.api ++
            [Event.handleError e, Event.queueForget key, Event.queueDone key]) := by
  obtain ⟨c1, h1, hp1, hadd, hforget⟩ :=
    reconcilePasses_failing key envFail e callsFail hfail k
      (controllerWith envFail key) 0 (controllerWith_pending _ _) (by omega)
  rw [Nat.zero_add] at hp1
  obtain ⟨c2, h2, hidle, hlog⟩ := reconcilePass_success c1 key envOk callsOk k hp1 hok
  have hf0 := count_api callsOk (Event.queueForget key) rfl
  have ha0 := count_api callsOk (Event.queueAddRateLimited key) rfl
  have hc1 : c1.log.count (Event.queueForget key) = 0 := by
    rw [hforget]; simp [controllerWith]
  have hc2 : c1.log.count (Event.queueAddRateLimited key) = k := by
    rw [hadd]; simp [controllerWith]
  have hpend := idle_queueAdd c2 key k hidle
  have hlater : ∃ c3, reconcilePass key envFail (c2.queueAdd key) = some c3 ∧
      (k ≤ maxRetry →
        c3.queue.NumRequeues key = k + 1 ∧
        c3.log = (c2.queueAdd key).log ++ [Event.queueGet key] ++
          callsFail.map Event.api ++
          [Event.queueAddRateLimited key, Event.queueDone key]) ∧
      (k = maxRetry + 1 →
        c3.queue.NumRequeues key = 0 ∧
        c3.log = (c2.queueAdd key).log ++ [Event.queueGet key] ++
          callsFail.map Event.api ++
          [Event.handleError e, Event.queueForget key, Event.queueDone key]) := by
    by_cases hle : k ≤ maxRetry
    · obtain ⟨c3, h3, hp3, hlog3⟩ :=
        reconcilePass_requeue (c2.queueAdd key) key envFail e callsFail k hpend hfail hle
      exact ⟨c3, h3, fun _ => ⟨hp3.1, hlog3⟩, fun heq => absurd hle (by omega)⟩
    · obtain ⟨c3, h3, hi3, hlog3⟩ :=
        reconcilePass_forget (c2.queueAdd key) key envFail e callsFail k hpend hfail
          (by omega)
      exact ⟨c3, h3, fun h => absurd h hle, fun _ => ⟨hi3.1, hlog3⟩⟩
  refine ⟨c2, ?_, ?_, ?_, hidle.1, hpend.1, hlater⟩
  · rw [reconcilePasses_append key _ [envOk] _ c1 h1]
    simp only [reconcilePasses, h2]
  · rw [← List.count_eq_zero, hlog]
    simp [List.count_append, hf0, hc1, List.count_cons]
  · rw [hlog]
    simp [List.count_append, ha0, hc2, List.count_cons]

theorem processNextItem_success_keeps_count_witness :
    ∃ c, reconcilePasses "ns/svc1" (List.replicate 3 envFailing ++ [clusterMarkedBoth.env])
        (controllerWith envFailing "ns/svc1") = some c ∧
      Event.queueForget "ns/svc1" ∉ c.log ∧
      c.log.count (Event.queueAddRateLimited "ns/svc1") = 3 ∧
      c.queue.NumRequeues "ns/svc1" = 3 ∧
      (c.queueAdd "ns/svc1").queue.NumRequeues "ns/svc1" = 3 ∧
      ∃ c3, reconcilePass "ns/svc1" envFailing (c.queueAdd "ns/svc1") = some c3 ∧
        c3.queue.NumRequeues "ns/svc1" = 3 + 1 ∧
        c3.log = (c.queueAdd "ns/svc1").log ++ [Event.queueGet "ns/svc1"] ++
          [Call.getService "ns" "svc1"].map Event.api ++
          [Event.queueAddRateLimited "ns/svc1", Event.queueDone "ns/svc1"] := by
  obtain ⟨c, h1, h2, h3, h4, h5, c3, h6, hle, _⟩ :=
    processNextItem_success_keeps_count envFailing clusterMarkedBoth.env "ns/svc1"
      (Err.other "cache unavailable") [Call.getService "ns" "svc1"]
      [Call.getService "ns" "svc1", Call.getIngress "ns" "svc1"] 3 rfl rfl (by decide)
  exact ⟨c, h1, h2, h3, h4, h5, c3, h6, hle (by decide)⟩

/-! ## The claims about errors that reach `handlerError` -/

/-- C8, as stated, fails: on the delete path with a Delete call that answers
not-found, `syncService` does not return nil. -/
theorem syncService_delete_not_found_not_nil :
    ¬ (∀ (env : Env) (key ns name : String) (svc : Service) (ig : Ingress),
        SplitMetaNamespaceKey key = .ok (ns, name) →
        env.serviceGet ns name = .ok svc →
        (∀ v, ("ingress/http", v) ∉ svc.annotations) →
        env.ingressGet ns name = .ok ig →
        env.ingressDelete ns name = some Err.notFound →
        (syncService env key).1 = none) := by
  intro h
  have h1 := h envStaleIngress "ns/svc1" "ns" "svc1" svcPlain ingSvc1 rfl rfl
    (by intro v hv; cases hv) rfl rfl
  have h2 : (syncService envStaleIngress "ns/svc1").1 = some Err.notFound := rfl
  rw [h2] at h1
  cases h1

/-- C8, amended: on the delete path (marker absent, ingress present in the cache),
when the Delete call answers not-found, `syncService` returns that not-found error after
its one Delete call; `processNextItem` hands the error to `handlerError`, which, the
requeue count being at most `maxRetry`, re-queues the key through `AddRateLimited`. -/
theorem syncService_delete_not_found_is_error (c : controller) (q : WorkQueue)
    (key ns name : String) (svc : Service) (ig : Ingress)
    (hsplit : SplitMetaNamespaceKey key = .ok (ns, name))
    (hfound : c.env.serviceGet ns name = .ok svc)
    (hnomarker : ∀ v, ("ingress/http", v) ∉ svc.annotations)
    (hpresent : c.env.ingressGet ns name = .ok ig)
    (hgone : c.env.ingressDelete ns name = some Err.notFound)
    (hget : c.queue.Get = GetResult.item key q)
    (hcount : q.NumRequeues key ≤ maxRetry) :
    (syncService c.env key).1 = some Err.notFound ∧
    (syncService c.env key).2.filter Call.isMutating = [Call.delete ns name] ∧
    ∃ c1, processNextItem c = some (true, c1) ∧
      c1.log = c.log ++
        [Event.queueGet key, Event.api (Call.getService ns name),
          Event.api (Call.getIngress ns name), Event.api (Call.delete ns name),
          Event.queueAddRateLimited key, Event.queueDone key] ∧
      c1.queue.NumRequeues key = q.NumRequeues key + 1 := by
  have hsync := syncService_delete_path c.env key ns name svc ig hsplit hfound
    (hasMarker_eq_false svc hnomarker) hpresent
  rw [hgone] at hsync
  have hcount1 : q.failures key ≤ maxRetry := hcount
  refine ⟨by rw [hsync], ?_, _, processNextItem_error c key q _ _ hget hsync, ?_, ?_⟩
  · rw [hsync]
    simp [Call.isMutating, Call.isCreate, Call.isDelete]
  · simp [handlerError, WorkQueue.NumRequeues, hcount1, controller.queueDone,
      controller.queueAddRateLimited]
  · simp only [handlerError, WorkQueue.NumRequeues, hcount1, if_true, controller.queueDone,
      controller.queueAddRateLimited, WorkQueue.Done_failures,
      WorkQueue.AddRateLimited_failures]

theorem syncService_delete_not_found_is_error_witness :
    (syncService (controllerWith envStaleIngress "ns/svc1").env "ns/svc1").1
      = some Err.notFound ∧
    (syncService (controllerWith envStaleIngress "ns/svc1").env "ns/svc1").2.filter
      Call.isMutating = [Call.delete "ns" "svc1"] ∧
    ∃ c1, processNextItem (controllerWith envStaleIngress "ns/svc1") = some (true, c1) ∧
      c1.log = (controllerWith envStaleIngress "ns/svc1").log ++
        [Event.queueGet "ns/svc1", Event.api (Call.getService "ns" "svc1"),
          Event.api (Call.getIngress "ns" "svc1"), Event.api (Call.delete "ns" "svc1"),
          Event.queueAddRateLimited "ns/svc1", Event.queueDone "ns/svc1"] ∧
      c1.queue.NumRequeues "ns/svc1" =
        (queueHandedOut "ns/svc1").NumRequeues "ns/svc1" + 1 :=
  syncService_delete_not_found_is_error (controllerWith envStaleIngress "ns/svc1")
    (queueHandedOut "ns/svc1")
    "ns/svc1" "ns" "svc1" svcPlain ingSvc1 rfl rfl (by intro v hv; cases hv) rfl rfl rfl
    (by decide)

/-- C9, as stated, fails: the key `a/b/c` cannot be split, and processing it from a
fresh queue re-queues it through `AddRateLimited`: it waits with requeue count 1 and
is queued again once its delay has elapsed. -/
theorem processNextItem_malformed_key_requeued :
    SplitMetaNamespaceKey "a/b/c" = .error (Err.keyFormat "a/b/c") ∧
    ∃ c1, processNextItem (controllerWith clusterMarkedOnly.env "a/b/c") = some (true, c1) ∧
      c1.log = [Event.queueGet "a/b/c", Event.queueAddRateLimited "a/b/c",
        Event.queueDone "a/b/c"] ∧
      c1.queue.waiting = ["a/b/c"] ∧
      c1.queue.NumRequeues "a/b/c" = 1 ∧
      (c1.queue.deliver "a/b/c").queue = ["a/b/c"] :=
  ⟨rfl, _, rfl, rfl, rfl, rfl, rfl⟩

/-- C9, amended: for a key that cannot be split into namespace and name, processing
the item performs no cache lookup and no mutating call; the error is handled like any
other error of `syncService`: while the requeue count of the key is at most `maxRetry`
the key is re-queued through `AddRateLimited`, and beyond that the error is logged
and the key forgotten. -/
theorem processNextItem_malformed_key (c : controller) (q : WorkQueue) (key : String)
    (e : Err)
    (hsplit : SplitMetaNamespaceKey key = .error e)
    (hget : c.queue.Get = GetResult.item key q) :
    (syncService c.env key).2 = [] ∧
    ∃ c1, processNextItem c = some (true, c1) ∧
      c1.log.filter Event.isApi = c.log.filter Event.isApi ∧
      (q.NumRequeues key ≤ maxRetry →
        c1.log = c.log ++
          [Event.queueGet key, Event.queueAddRateLimited key, Event.queueDone key] ∧
        c1.queue.NumRequeues key = q.NumRequeues key + 1 ∧
        (q.shuttingDown = false → key ∈ c1.queue.waiting)) ∧
      (maxRetry < q.NumRequeues key →
        c1.log = c.log ++
          [Event.queueGet key, Event.handleError e, Event.queueForget key,
            Event.queueDone key] ∧
        c1.queue.NumRequeues key = 0) := by
  have hsync := syncService_key_error c.env key e hsplit
  refine ⟨by rw [hsync], _, processNextItem_error c key q _ _ hget hsync, ?_, ?_, ?_⟩
  · by_cases hle : q.failures key ≤ maxRetry
    · simp [handlerError, WorkQueue.NumRequeues, hle, controller.queueDone,
        controller.queueAddRateLimited, Event.isApi, List.filter_append]
    · simp [handlerError, WorkQueue.NumRequeues, hle, controller.queueDone,
        controller.queueForget, Event.isApi, List.filter_append]
  · intro hle
    have hle1 : q.failures key ≤ maxRetry := hle
    refine ⟨?_, ?_, ?_⟩
    · simp [handlerError, WorkQueue.NumRequeues, hle1, controller.queueDone,
        controller.queueAddRateLimited]
    · simp only [handlerError, WorkQueue.NumRequeues, hle1, if_true, controller.queueDone,
        controller.queueAddRateLimited, WorkQueue.Done_failures,
        WorkQueue.AddRateLimited_failures]
    · intro hopen
      simp only [handlerError, WorkQueue.NumRequeues, hle1, if_true, controller.queueDone,
        controller.queueAddRateLimited, WorkQueue.Done_waiting]
      exact WorkQueue.AddRateLimited_waiting q key hopen
  · intro hgt
    have hgt1 : ¬ (q.failures key ≤ maxRetry) := by
      have : maxRetry < q.failures key := hgt
      omega
    refine ⟨?_, ?_⟩
    · simp [handlerError, WorkQueue.NumRequeues, hgt1, controller.queueDone,
        controller.queueForget]
    · simp only [handlerError, WorkQueue.NumRequeues, hgt1, if_false, controller.queueDone,
        controller.queueForget, WorkQueue.Done_failures, WorkQueue.Forget_failures]

theorem processNextItem_malformed_key_witness :
    (syncService (controllerWith clusterMarkedOnly.env "a/b/c").env "a/b/c").2 = [] ∧
    ∃ c1, processNextItem (controllerWith clusterMarkedOnly.env "a/b/c") = some (true, c1) ∧
      c1.log.filter Event.isApi = [] ∧
      c1.log = [Event.queueGet "a/b/c", Event.queueAddRateLimited "a/b/c",
        Event.queueDone "a/b/c"] ∧
      c1.queue.NumRequeues "a/b/c" = 1 ∧
      "a/b/c" ∈ c1.queue.waiting := by
  obtain ⟨h1, c1, hc1, hapi, hle, _⟩ :=
    processNextItem_malformed_key (controllerWith clusterMarkedOnly.env "a/b/c")
      (queueHandedOut "a/b/c") "a/b/c" (Err.keyFormat "a/b/c") rfl rfl
  obtain ⟨hlog, hcount, hwait⟩ := hle (by decide)
  exact ⟨h1, c1, hc1, hapi, hlog, hcount, hwait rfl⟩

/-! ## The claim about `deleteIngress` -/

/-- C10: for a deleted ingress handed to `deleteIngress`: when it has no controlling
owner reference, or that reference is not of kind `Service`, the controller state, its
queue included, is left unchanged; otherwise exactly the call `queue.Add` with the key
`Namespace + "/" + Name` of the ingress is made, and that key is the key the key
function gives for the service of the same namespace and name (the namespace of an
ingress being non-empty).  In no case is a call to the client or a lister made. -/
theorem deleteIngress_enqueues_owner_key (c : controller) (ingress : Ingress)
    (hns : ingress.Namespace ≠ "") :
    ((GetControllerOf ingress = none ∨
        ∃ r, GetControllerOf ingress = some r ∧ r.kind ≠ "Service") →
      deleteIngress c ingress = c) ∧
    ((∃ r, GetControllerOf ingress = some r ∧ r.kind = "Service") →
      deleteIngress c ingress = c.queueAdd (ingress.Namespace ++ "/" ++ ingress.Name) ∧
      (deleteIngress c ingress).queue =
        c.queue.Add (ingress.Namespace ++ "/" ++ ingress.Name) ∧
      (deleteIngress c ingress).log =
        c.log ++ [Event.queueAdd (ingress.Namespace ++ "/" ++ ingress.Name)]) ∧
    (∀ svc : Service, svc.Namespace = ingress.Namespace → svc.Name = ingress.Name →
      ingress.Namespace ++ "/" ++ ingress.Name =
        MetaNamespaceKeyFunc svc.Namespace svc.Name) ∧
    (deleteIngress c ingress).log.filter Event.isApi = c.log.filter Event.isApi := by
  refine ⟨?_, ?_, ?_, ?_⟩
  · rintro (h | ⟨r, h, hk⟩)
    · simp [deleteIngress, h]
    · simp [deleteIngress, h, hk]
  · rintro ⟨r, h, hk⟩
    have hd : deleteIngress c ingress
        = c.queueAdd (ingress.Namespace ++ "/" ++ ingress.Name) := by
      simp [deleteIngress, h, hk]
    rw [hd]
    exact ⟨rfl, rfl, rfl⟩
  · intro svc h1 h2
    have hlen : svc.Namespace.length > 0 := by
      rw [h1]
      rcases hl : ingress.Namespace with ⟨l⟩
      cases l with
      | nil => exact absurd hl hns
      | cons a t => simp [String.length]
    unfold MetaNamespaceKeyFunc
    rw [if_pos hlen, h1, h2]
  · cases h : GetControllerOf ingress with
    | none => simp [deleteIngress, h]
    | some r =>
      by_cases hk : r.kind = "Service"
      · simp [deleteIngress, h, hk, controller.queueAdd, List.filter_append, Event.isApi]
      · simp [deleteIngress, h, hk]

theorem deleteIngress_enqueues_owner_key_witness :
    deleteIngress (controllerWith clusterMarkedOnly.env "ns/other") ingUnowned
      = controllerWith clusterMarkedOnly.env "ns/other" ∧
    deleteIngress (controllerWith clusterMarkedOnly.env "ns/other") ingOtherOwner
      = controllerWith clusterMarkedOnly.env "ns/other" ∧
    (deleteIngress (controllerWith clusterMarkedOnly.env "ns/other") ingSvc1).queue
      = (controllerWith clusterMarkedOnly.env "ns/other").queue.Add
          (ingSvc1.Namespace ++ "/" ++ ingSvc1.Name) ∧
    ingSvc1.Namespace ++ "/" ++ ingSvc1.Name
      = MetaNamespaceKeyFunc svcMarked.Namespace svcMarked.Name ∧
    (deleteIngress (controllerWith clusterMarkedOnly.env "ns/other") ingSvc1).log.filter
      Event.isApi
      = (controllerWith clusterMarkedOnly.env "ns/other").log.filter Event.isApi :=
  ⟨(deleteIngress_enqueues_owner_key _ ingUnowned (by decide)).1 (Or.inl rfl),
   (deleteIngress_enqueues_owner_key _ ingOtherOwner (by decide)).1
     (Or.inr ⟨_, rfl, by decide⟩),
   ((deleteIngress_enqueues_owner_key _ ingSvc1 (by decide)).2.1 ⟨_, rfl, rfl⟩).2.1,
   (deleteIngress_enqueues_owner_key (controllerWith clusterMarkedOnly.env "ns/other")
     ingSvc1 (by decide)).2.2.1 svcMarked rfl rfl,
   (deleteIngress_enqueues_owner_key _ ingSvc1 (by decide)).2.2.2⟩

end IngressManager
